import Mathlib

/-!
Verification of the rspd SNI proxy (src/main.rs) against its specification.

The embedding models byte streams as `List Nat` (each element a byte value).
Reading up to `cap` bytes from an in-memory stream returns `take cap` and
leaves `drop cap`; an exhausted stream returns the empty chunk, which is the
reader convention for end-of-stream.  Fallible operations return `Except Err`;
loops that the source expresses as re-entrant `poll_read` state machines are
modelled with an explicit fuel parameter, where a `none` result means the
fuel ran out before the call returned (this makes genuine non-termination of
the source observable as `∀ fuel, ... = none`).
-/

/-- The `std::io::ErrorKind` values produced by the program. -/
inductive ErrorKind
  | invalidData
  | unexpectedEof
deriving DecidableEq, Repr

/-- The distinct error values the program constructs (each paired with its
`io::ErrorKind` by `Err.kind`).  `malformedRecord` is the wrong-content-type
error, `notClientHello` the wrong-handshake-type error, `badUtf8` the
`String::from_utf8` failure, `unknownHost` the failed host-mapping lookup,
and `unexpectedEof` the error `read_exact` returns on a short stream. -/
inductive Err
  | malformedRecord (got : Nat)
  | recordTooLarge (size : Nat)
  | notClientHello (typ : Nat)
  | badUtf8
  | unexpectedEof
  | unknownHost
deriving DecidableEq, Repr

/-- The `io::ErrorKind` each error is constructed with in the source. -/
def Err.kind : Err → ErrorKind
  | .malformedRecord _ => .invalidData
  | .recordTooLarge _ => .invalidData
  | .notClientHello _ => .invalidData
  | .badUtf8 => .invalidData
  | .unknownHost => .invalidData
  | .unexpectedEof => .unexpectedEof

/-- `RecordingReader` state: `reader` is the remaining bytes of the wrapped
stream, `buf` is the recording tape (field names as in the source). -/
structure RecordingReader where
  reader : List Nat
  buf : List Nat
deriving DecidableEq, Repr

/-- `RecordingReader::poll_read`: delegate to the inner stream, then append
`filled[n+1..]` to the tape, where `n` is the number of bytes the caller's
buffer held before the call.  With `chunk` the newly read bytes this appends
`chunk.drop 1`.  When the inner read adds no bytes (end-of-stream, or a
zero-capacity buffer) the slice index `n+1` exceeds the filled length and the
source panics; the model returns `none` for that case. -/
def RecordingReader.poll_read (cap : Nat) (r : RecordingReader) :
    Option (List Nat × RecordingReader) :=
  let chunk := r.reader.take cap
  if chunk.isEmpty then none
  else some (chunk, ⟨r.reader.drop cap, r.buf ++ chunk.drop 1⟩)

/-- The client→upstream copy in `handle_connection`:
`io::copy(read_buf.chain(client_read_stream), server_write_stream)` sends the
recorded tape first, then the rest of the live client stream. -/
def upstreamBytes (tape liveRest : List Nat) : List Nat := tape ++ liveRest

/-- A sequence of reads through a `RecordingReader`, one per capacity in
`caps` (the bytes returned to the caller are discarded here; only the
reader state matters).  `none` propagates a panic of `poll_read`. -/
def recordingReads : List Nat → RecordingReader → Option RecordingReader
  | [], r => some r
  | cap :: caps, r =>
    match RecordingReader.poll_read cap r with
    | none => none
    | some (_, r') => recordingReads caps r'

/-- Reading up to `cap` bytes from a plain in-memory byte stream. -/
def listRead (cap : Nat) (s : List Nat) : Option (List Nat × List Nat) :=
  some (s.take cap, s.drop cap)

/-- `HandshakeRecordReaderState` (constructor names as in the source). -/
inductive HRRState
  | readingContentType
  | readingMajorMinorVersion (bytesRead : Nat)
  | readingRecordSize (buf : List Nat) (bytesRead : Nat)
  | readingRecord (remaining : Nat)
deriving DecidableEq, Repr

/-- `HandshakeRecordReader::poll_read`, generic over the underlying reader
`rd` (mirroring the `R: AsyncRead` parameter; `rd cap u = none` models a
panic inside the underlying reader).  One unit of fuel is spent per
iteration of the source's `loop`; `none` means the loop ran longer than the
given fuel.  Faithful points: the content-type arm returns the underlying
result unchanged (zero bytes surfaced) unless exactly one byte was read; the
version and size arms loop without returning; the record arm caps the read
at `min cap remaining` and returns after a single underlying read. -/
def HandshakeRecordReader.poll_read {σ : Type} (rd : Nat → σ → Option (List Nat × σ)) :
    Nat → HRRState → σ → Nat → Option (Except Err (List Nat × HRRState × σ))
  | 0, _, _, _ => none
  | fuel+1, st, u, cap =>
    match st with
    | .readingContentType =>
      match rd 1 u with
      | none => none
      | some (chunk, u') =>
        if chunk.length = 1 then
          if chunk.headD 0 ≠ 22 then
            some (.error (.malformedRecord (chunk.headD 0)))
          else
            HandshakeRecordReader.poll_read rd fuel (.readingMajorMinorVersion 0) u' cap
        else
          some (.ok ([], .readingContentType, u'))
    | .readingMajorMinorVersion bytesRead =>
      match rd (2 - bytesRead) u with
      | none => none
      | some (chunk, u') =>
        let bytesRead' := bytesRead + chunk.length
        if bytesRead' = 2 then
          HandshakeRecordReader.poll_read rd fuel (.readingRecordSize [] 0) u' cap
        else
          HandshakeRecordReader.poll_read rd fuel (.readingMajorMinorVersion bytesRead') u' cap
    | .readingRecordSize buf bytesRead =>
      match rd (2 - bytesRead) u with
      | none => none
      | some (chunk, u') =>
        let buf' := buf ++ chunk
        let bytesRead' := bytesRead + chunk.length
        if bytesRead' = 2 then
          let record_size := 256 * buf'.headD 0 + buf'.tail.headD 0
          if record_size > 16384 then
            some (.error (.recordTooLarge record_size))
          else
            HandshakeRecordReader.poll_read rd fuel (.readingRecord record_size) u' cap
        else
          HandshakeRecordReader.poll_read rd fuel (.readingRecordSize buf' bytesRead') u' cap
    | .readingRecord remaining =>
      match rd (min cap remaining) u with
      | none => none
      | some (chunk, u') =>
        let remaining' := remaining - chunk.length
        some (.ok (chunk,
          (if remaining' = 0 then .readingContentType else .readingRecord remaining'),
          u'))

/-- `HandshakeRecordReader::poll_read` over a plain in-memory stream. -/
def hrrReadList : Nat → HRRState → List Nat → Nat →
    Option (Except Err (List Nat × HRRState × List Nat)) :=
  HandshakeRecordReader.poll_read listRead

/-- A caller that repeatedly reads from the `HandshakeRecordReader` with
buffers of capacity `cap`, collecting the returned bytes, until a read
returns zero bytes — the reader convention for end-of-stream (this is how
`read_exact` and `io::copy` interpret a zero-byte read).  `fuel` bounds the
number of reads, `rfuel` is the fuel given to each `poll_read` call. -/
def hrrDrain : Nat → Nat → HRRState → List Nat → Nat → Option (Except Err (List Nat))
  | 0, _, _, _, _ => none
  | fuel+1, rfuel, st, src, cap =>
    match hrrReadList rfuel st src cap with
    | none => none
    | some (.error e) => some (.error e)
    | some (.ok (out, st', src')) =>
      if out.isEmpty then some (.ok [])
      else
        match hrrDrain fuel rfuel st' src' cap with
        | none => none
        | some (.error e) => some (.error e)
        | some (.ok rest) => some (.ok (out ++ rest))

/-- The wire image of one TLS record with content type 22, the given two
legacy-version bytes, and the given payload (length written big-endian). -/
def encodeRecord (v1 v2 : Nat) (p : List Nat) : List Nat :=
  22 :: v1 :: v2 :: (p.length / 256) :: (p.length % 256) :: p

/-- The wire image of a sequence of records. -/
def encodeRecords : List (Nat × Nat × List Nat) → List Nat
  | [] => []
  | (v1, v2, p) :: rs => encodeRecord v1 v2 p ++ encodeRecords rs

/-- The concatenation of the payloads of a sequence of records. -/
def concatPayloads : List (Nat × Nat × List Nat) → List Nat
  | [] => []
  | (_, _, p) :: rs => p ++ concatPayloads rs

/-- `read_u8` via `read_exact` on a 1-byte buffer. -/
def readU8 : List Nat → Except Err (Nat × List Nat)
  | b :: rest => .ok (b, rest)
  | _ => .error .unexpectedEof

/-- `read_u16` via `read_exact` on a 2-byte buffer, decoded big-endian. -/
def readU16 : List Nat → Except Err (Nat × List Nat)
  | a :: b :: rest => .ok (256 * a + b, rest)
  | _ => .error .unexpectedEof

/-- `read_u24` via `read_exact` on a 3-byte buffer, decoded big-endian. -/
def readU24 : List Nat → Except Err (Nat × List Nat)
  | a :: b :: c :: rest => .ok (65536 * a + 256 * b + c, rest)
  | _ => .error .unexpectedEof

/-- `skip(reader, len)` = `io::copy(reader.take(len), io::sink())`: copies
until the take-adapter is exhausted, so it consumes `min len (length s)`
bytes and always succeeds — reaching end-of-stream early is not an error
for `io::copy`. -/
def skip (len : Nat) (s : List Nat) : Except Err (List Nat) :=
  .ok (s.drop len)

/-- `skip_vec_u8`: read a 1-byte length prefix, then `skip` that many bytes. -/
def skip_vec_u8 (s : List Nat) : Except Err (List Nat) :=
  match readU8 s with
  | .error e => .error e
  | .ok (sz, rest) => skip sz rest

/-- `skip_vec_u16`: read a 2-byte length prefix, then `skip` that many bytes. -/
def skip_vec_u16 (s : List Nat) : Except Err (List Nat) :=
  match readU16 s with
  | .error e => .error e
  | .ok (sz, rest) => skip sz rest

/-- Whether `b` is a UTF-8 continuation byte. -/
def utf8Cont (b : Nat) : Bool := 0x80 ≤ b && b ≤ 0xBF

/-- `String::from_utf8` validity (RFC 3629 as enforced by the Rust standard
library: overlong encodings, surrogates and values above U+10FFFF rejected). -/
def validUtf8 : List Nat → Bool
  | [] => true
  | b :: rest =>
    if b ≤ 0x7F then validUtf8 rest
    else if b < 0xC2 then false
    else if b ≤ 0xDF then
      match rest with
      | c1 :: r => utf8Cont c1 && validUtf8 r
      | _ => false
    else if b ≤ 0xEF then
      match rest with
      | c1 :: c2 :: r =>
        (if b = 0xE0 then decide (0xA0 ≤ c1 ∧ c1 ≤ 0xBF)
         else if b = 0xED then decide (0x80 ≤ c1 ∧ c1 ≤ 0x9F)
         else utf8Cont c1) && utf8Cont c2 && validUtf8 r
      | _ => false
    else if b ≤ 0xF4 then
      match rest with
      | c1 :: c2 :: c3 :: r =>
        (if b = 0xF0 then decide (0x90 ≤ c1 ∧ c1 ≤ 0xBF)
         else if b = 0xF4 then decide (0x80 ≤ c1 ∧ c1 ≤ 0x8F)
         else utf8Cont c1) && utf8Cont c2 && utf8Cont c3 && validUtf8 r
      | _ => false
    else false

/-- The inner `ServerNameList` loop of `read_sni_host_name_from_client_hello`:
read a NameType byte; on `host_name` (0) read the 2-byte length, `read_exact`
that many bytes and validate UTF-8; otherwise `skip_vec_u16` and continue.
The stream is the ServerNameList cursor (`reader.take(snl_len)`). -/
def snlLoop : Nat → List Nat → Option (Except Err (List Nat))
  | 0, _ => none
  | fuel+1, s =>
    match readU8 s with
    | .error e => some (.error e)
    | .ok (name_typ, rest) =>
      if name_typ ≠ 0 then
        match skip_vec_u16 rest with
        | .error e => some (.error e)
        | .ok rest' => snlLoop fuel rest'
      else
        match readU16 rest with
        | .error e => some (.error e)
        | .ok (name_len, rest') =>
          if rest'.length < name_len then some (.error .unexpectedEof)
          else
            let name_buf := rest'.take name_len
            if validUtf8 name_buf then some (.ok name_buf)
            else some (.error .badUtf8)

/-- The extensions loop of `read_sni_host_name_from_client_hello`: read the
extension type and length; skip non-SNI extensions; on the SNI extension
(type 0) bound a cursor at the extension length, read the ServerNameList
length, bound a cursor at it and enter the ServerNameList loop.  The stream
is the extensions cursor (`reader.take(ext_len)`). -/
def extLoop : Nat → List Nat → Option (Except Err (List Nat))
  | 0, _ => none
  | fuel+1, s =>
    match readU16 s with
    | .error e => some (.error e)
    | .ok (ext_typ, s1) =>
      match readU16 s1 with
      | .error e => some (.error e)
      | .ok (ext_len, s2) =>
        if ext_typ ≠ 0 then
          match skip ext_len s2 with
          | .error e => some (.error e)
          | .ok s3 => extLoop fuel s3
        else
          let inner := s2.take ext_len
          match readU16 inner with
          | .error e => some (.error e)
          | .ok (snl_len, i1) => snlLoop fuel (i1.take snl_len)

/-- `read_sni_host_name_from_client_hello` over the handshake-message byte
stream (the output of the record reader).  Checks the handshake type, bounds
a cursor at the 3-byte message length, skips version+random, session ID,
cipher suites and compression methods, bounds a cursor at the extensions
length, and runs the extensions loop.  The returned host name is kept as its
byte sequence. -/
def read_sni_host_name_from_client_hello (fuel : Nat) (s : List Nat) :
    Option (Except Err (List Nat)) :=
  match readU8 s with
  | .error e => some (.error e)
  | .ok (typ, r1) =>
    if typ ≠ 1 then some (.error (.notClientHello typ))
    else
      match readU24 r1 with
      | .error e => some (.error e)
      | .ok (len, r2) =>
        let bounded := r2.take len
        match skip 34 bounded with
        | .error e => some (.error e)
        | .ok s1 =>
          match skip_vec_u8 s1 with
          | .error e => some (.error e)
          | .ok s2 =>
            match skip_vec_u16 s2 with
            | .error e => some (.error e)
            | .ok s3 =>
              match skip_vec_u8 s3 with
              | .error e => some (.error e)
              | .ok s4 =>
                match readU16 s4 with
                | .error e => some (.error e)
                | .ok (ext_len, s5) => extLoop fuel (s5.take ext_len)

/-- The host-mapping lookup in `handle_connection`
(`cfg.host_mappings.get(&sni_hostname)`), with host names as byte strings;
an absent key is the unknown-SNI-hostname error. -/
def lookupServerHost (host_mappings : List (List Nat × List Nat)) (sni : List Nat) :
    Except Err (List Nat) :=
  match host_mappings.find? (fun p => p.1 = sni) with
  | some p => .ok p.2
  | none => .error .unknownHost

/-- A well-formed ClientHello handshake message whose single SNI entry has
name type 0 and declared host-name length 0: type 1, 3-byte length 49,
version+random (34 zero bytes), empty session ID, empty cipher-suite list,
empty compression list, a 9-byte extensions block holding one server_name
extension (type 0, length 5) whose ServerNameList (length 3) holds one entry
of name type 0 and name length 0. -/
def c5Input : List Nat :=
  [1, 0, 0, 49] ++ [0, 0] ++ List.replicate 32 0 ++ [0] ++ [0, 0] ++ [0] ++
  [0, 9] ++ [0, 0, 0, 5, 0, 3, 0, 0, 0]

/-- Like `c5Input`, but the host name is the single byte 255, which is not
valid UTF-8 (lengths adjusted accordingly). -/
def c10BadUtf8Input : List Nat :=
  [1, 0, 0, 50] ++ [0, 0] ++ List.replicate 32 0 ++ [0] ++ [0, 0] ++ [0] ++
  [0, 10] ++ [0, 0, 0, 6, 0, 4, 0, 0, 1, 255]

/-! ### Step lemmas for the record-reader state machine -/

/-- Reading the content-type byte 22 consumes it and moves to the version state. -/
theorem hrrStepContentType (fuel cap : Nat) (rest : List Nat) :
    hrrReadList (fuel+1) .readingContentType (22 :: rest) cap
      = hrrReadList fuel (.readingMajorMinorVersion 0) rest cap := by
  simp [hrrReadList, HandshakeRecordReader.poll_read, listRead]

/-- Reading both version bytes moves to the size state. -/
theorem hrrStepVersion (fuel cap v1 v2 : Nat) (rest : List Nat) :
    hrrReadList (fuel+1) (.readingMajorMinorVersion 0) (v1 :: v2 :: rest) cap
      = hrrReadList fuel (.readingRecordSize [] 0) rest cap := by
  simp [hrrReadList, HandshakeRecordReader.poll_read, listRead]

/-- Reading both size bytes decodes the big-endian length, failing when it
exceeds 16384 and otherwise moving to the payload state. -/
theorem hrrStepSize (fuel cap hi lo : Nat) (rest : List Nat) :
    hrrReadList (fuel+1) (.readingRecordSize [] 0) (hi :: lo :: rest) cap
      = if 256 * hi + lo > 16384 then some (.error (.recordTooLarge (256 * hi + lo)))
        else hrrReadList fuel (.readingRecord (256 * hi + lo)) rest cap := by
  simp [hrrReadList, HandshakeRecordReader.poll_read, listRead]

/-- A payload-state read returns at once with at most `min cap remaining` bytes. -/
theorem hrrStepRecord (fuel cap remaining : Nat) (src : List Nat) :
    hrrReadList (fuel+1) (.readingRecord remaining) src cap
      = some (.ok (src.take (min cap remaining),
          (if remaining - (src.take (min cap remaining)).length = 0
           then .readingContentType
           else .readingRecord (remaining - (src.take (min cap remaining)).length)),
          src.drop (min cap remaining))) := by
  simp [hrrReadList, HandshakeRecordReader.poll_read, listRead]

/-! ### Claim theorems -/

/-- C1: refuted as stated — evaluating `RecordingReader::poll_read` on source
bytes `[5, 6]` with a single read of capacity 2 returns both bytes to the
caller but records only `[6]` on the tape, because the source appends
`filled[n+1..]` and so drops the first newly read byte; the tape therefore
differs from `S[0..2]`. -/
theorem C1_recording_tape_drops_first_byte :
    RecordingReader.poll_read 2 ⟨[5, 6], []⟩ = some ([5, 6], ⟨[], [6]⟩) ∧
    [6] ≠ List.take 2 [5, 6] :=
  ⟨rfl, by decide⟩

/-- Each successful `RecordingReader::poll_read` shrinks the combined length
of unread source and tape by exactly one: the chunk moves from the source to
the tape minus its dropped first byte. -/
theorem poll_read_length (cap : Nat) (r r' : RecordingReader) (chunk : List Nat)
    (h : RecordingReader.poll_read cap r = some (chunk, r')) :
    r'.buf.length + r'.reader.length + 1 = r.buf.length + r.reader.length := by
  simp only [RecordingReader.poll_read] at h
  split at h
  · exact absurd h (by simp)
  · rename_i hne
    simp only [Option.some.injEq, Prod.mk.injEq] at h
    rw [← h.2]
    have hpos : 0 < (r.reader.take cap).length := by
      cases hc : r.reader.take cap with
      | nil => rw [hc] at hne; simp at hne
      | cons x t => simp [hc]
    simp only [List.length_append, List.length_drop, List.length_take] at hpos ⊢
    omega

/-- Over a sequence of reads, the combined length of unread source and tape
drops by exactly the number of reads performed. -/
theorem recordingReads_length (caps : List Nat) : ∀ (r r' : RecordingReader),
    recordingReads caps r = some r' →
    r'.buf.length + r'.reader.length + caps.length = r.buf.length + r.reader.length := by
  induction caps with
  | nil =>
    intro r r' h
    simp only [recordingReads, Option.some.injEq] at h
    rw [h]
    simp
  | cons cap caps ih =>
    intro r r' h
    simp only [recordingReads] at h
    rcases hp : RecordingReader.poll_read cap r with _ | ⟨chunk, r1⟩
    · rw [hp] at h; simp at h
    · rw [hp] at h
      have h1 := poll_read_length cap r r1 chunk hp
      have h2 := ih r1 r' h
      simp only [List.length_cons]
      omega

/-- C2: refuted as stated — every successful read through the
`RecordingReader` loses exactly one byte from the tape, so after any
inspection that performs at least one read (every ClientHello inspection
reads at least the first record header), the bytes delivered to the
upstream — the tape followed by the remaining live client stream, as
produced by `read_buf.chain(client_read_stream)` — are strictly shorter
than, hence different from, the original client stream. -/
theorem C2_splice_not_transparent (caps S : List Nat) (r' : RecordingReader)
    (hne : caps ≠ [])
    (h : recordingReads caps ⟨S, []⟩ = some r') :
    upstreamBytes r'.buf r'.reader ≠ S := by
  intro heq
  have hlen := congrArg List.length heq
  have h2 := recordingReads_length caps ⟨S, []⟩ r' h
  have h3 : caps.length ≠ 0 := by
    simpa [List.length_eq_zero] using hne
  simp only [upstreamBytes, List.length_append] at hlen
  simp only [List.length_nil] at h2
  omega

/-- Witness for C2: the client stream `[22, 3, 1, 0, 1, 99]` (one handshake
record with payload `[99]`).  Driving the `HandshakeRecordReader` over the
`RecordingReader` consumes the record with underlying reads of capacities
1, 2, 2, 1 and leaves tape `[1, 1]`, so the upstream would receive
`[1, 1]` instead of the six original bytes. -/
theorem C2_splice_not_transparent_witness :
    ([1, 2, 2, 1] : List Nat) ≠ [] ∧
    recordingReads [1, 2, 2, 1] ⟨[22, 3, 1, 0, 1, 99], []⟩ = some ⟨[], [1, 1]⟩ ∧
    HandshakeRecordReader.poll_read RecordingReader.poll_read 4
        .readingContentType ⟨[22, 3, 1, 0, 1, 99], []⟩ 1
      = some (.ok ([99], .readingContentType, ⟨[], [1, 1]⟩)) ∧
    upstreamBytes [1, 1] [] ≠ [22, 3, 1, 0, 1, 99] :=
  ⟨by decide, rfl, rfl,
   C2_splice_not_transparent [1, 2, 2, 1] [22, 3, 1, 0, 1, 99] ⟨[], [1, 1]⟩
     (by decide) rfl⟩

/-- C6 counterexample: `skip 5` on a 2-byte stream succeeds after consuming
only the 2 available bytes — it does not surface an end-of-stream error,
contradicting the claim that skip either advances exactly `n` bytes or
surfaces EOF. -/
theorem C6_skip_counterexample :
    skip 5 [7, 8] = .ok [] ∧ List.length [7, 8] < 5 ∧
    List.length [7, 8] - List.length ([] : List Nat) ≠ 5 :=
  ⟨rfl, by decide, by decide⟩

/-- C6 amended: `skip n` always succeeds, consuming `min n (length s)` bytes
of the stream; a stream shorter than `n` is consumed entirely and no error
is surfaced by skip itself. -/
theorem C6_skip_consumes_min (n : Nat) (s : List Nat) :
    skip n s = .ok (s.drop n) ∧
    s.length - (s.drop n).length = min n s.length := by
  refine ⟨rfl, ?_⟩
  simp only [List.length_drop]
  omega

/-- C8: any content-type byte other than 22 makes the next read fail at once
with the wrong-content-type (`MalformedRecord`) error, and no byte of the
record is surfaced to the caller. -/
theorem C8_wrong_content_type_rejected (fuel b cap : Nat) (rest : List Nat)
    (h : b ≠ 22) :
    hrrReadList (fuel+1) .readingContentType (b :: rest) cap
      = some (.error (.malformedRecord b)) := by
  simp [hrrReadList, HandshakeRecordReader.poll_read, listRead, h]

/-- Witness for C8 at content-type byte 23. -/
theorem C8_wrong_content_type_rejected_witness :
    (23 : Nat) ≠ 22 ∧
    hrrReadList 1 .readingContentType [23] 1 = some (.error (.malformedRecord 23)) :=
  ⟨by decide, C8_wrong_content_type_rejected 0 23 1 [] (by decide)⟩

/-- C9: a single read in the payload state returns at most
`min (caller capacity) remaining` bytes, so it never spans a record
boundary. -/
theorem C9_payload_read_bounded (fuel rem cap : Nat) (src out src' : List Nat)
    (st' : HRRState)
    (h : hrrReadList (fuel+1) (.readingRecord rem) src cap = some (.ok (out, st', src'))) :
    out.length ≤ min cap rem := by
  rw [hrrStepRecord] at h
  simp only [Option.some.injEq, Except.ok.injEq, Prod.mk.injEq] at h
  rw [← h.1, List.length_take]
  exact le_trans (Nat.min_le_left _ _) (le_refl _)

/-- Witness for C9: capacity 2 against a record with 3 bytes remaining. -/
theorem C9_payload_read_bounded_witness :
    hrrReadList 1 (.readingRecord 3) [1, 2, 3, 4] 2
      = some (.ok ([1, 2], .readingRecord 1, [3, 4])) ∧
    List.length [1, 2] ≤ min 2 3 :=
  ⟨rfl, C9_payload_read_bounded 0 3 2 [1, 2, 3, 4] [1, 2] [3, 4] (.readingRecord 1) rfl⟩

/-- C10: each inspection-stage failure — wrong record content type, oversize
record, handshake type other than ClientHello, invalid UTF-8 host name, and
SNI host absent from the host mapping — is constructed with
`io::ErrorKind::InvalidData`, so the error kinds named in the specification
cannot be told apart by the error's kind. -/
theorem C10_inspection_errors_all_invalid_data :
    (hrrReadList 1 .readingContentType [23] 1 = some (.error (.malformedRecord 23)) ∧
      (Err.malformedRecord 23).kind = .invalidData) ∧
    (hrrReadList 4 .readingContentType [22, 3, 1, 64, 1] 1
        = some (.error (.recordTooLarge 16385)) ∧
      (Err.recordTooLarge 16385).kind = .invalidData) ∧
    (read_sni_host_name_from_client_hello 1 [2] = some (.error (.notClientHello 2)) ∧
      (Err.notClientHello 2).kind = .invalidData) ∧
    (read_sni_host_name_from_client_hello 2 c10BadUtf8Input = some (.error .badUtf8) ∧
      Err.badUtf8.kind = .invalidData) ∧
    (lookupServerHost [] [101] = .error .unknownHost ∧
      Err.unknownHost.kind = .invalidData) :=
  ⟨⟨rfl, rfl⟩, ⟨rfl, rfl⟩, ⟨rfl, rfl⟩, ⟨rfl, rfl⟩, ⟨rfl, rfl⟩⟩

/-- C7: after reading a record header whose 2-byte big-endian declared length
decodes to more than 16384 the reader fails with the `RecordTooLarge` error
before delivering any payload byte, while any declared length of at most
16384 (16384 itself included) is accepted and the read proceeds to deliver
payload bytes. -/
theorem C7_record_size_limit (fuel v1 v2 hi lo cap : Nat) (rest : List Nat) :
    (16384 < 256 * hi + lo →
      hrrReadList (fuel+4) .readingContentType (22 :: v1 :: v2 :: hi :: lo :: rest) cap
        = some (.error (.recordTooLarge (256 * hi + lo)))) ∧
    (256 * hi + lo ≤ 16384 →
      ∃ out st' src',
        hrrReadList (fuel+4) .readingContentType (22 :: v1 :: v2 :: hi :: lo :: rest) cap
          = some (.ok (out, st', src'))) := by
  have hchain : hrrReadList (fuel+4) .readingContentType (22 :: v1 :: v2 :: hi :: lo :: rest) cap
      = if 256 * hi + lo > 16384 then some (.error (.recordTooLarge (256 * hi + lo)))
        else hrrReadList (fuel+1) (.readingRecord (256 * hi + lo)) rest cap := by
    rw [show fuel+4 = (fuel+3)+1 from rfl, hrrStepContentType,
        show fuel+3 = (fuel+2)+1 from rfl, hrrStepVersion,
        show fuel+2 = (fuel+1)+1 from rfl, hrrStepSize]
  constructor
  · intro hgt
    rw [hchain, if_pos hgt]
  · intro hle
    rw [hchain, if_neg (by omega), hrrStepRecord]
    exact ⟨_, _, _, rfl⟩

/-- Witness for C7: length 16385 is rejected, length 16384 is accepted. -/
theorem C7_record_size_limit_witness :
    (16384 < 256 * 64 + 1 ∧
      hrrReadList 4 .readingContentType [22, 3, 1, 64, 1] 1
        = some (.error (.recordTooLarge (256 * 64 + 1)))) ∧
    (256 * 64 + 0 ≤ 16384 ∧
      ∃ out st' src',
        hrrReadList 4 .readingContentType [22, 3, 1, 64, 0] 1
          = some (.ok (out, st', src'))) :=
  ⟨⟨by decide, (C7_record_size_limit 0 3 1 64 1 1 []).1 (by decide)⟩,
   ⟨by decide, (C7_record_size_limit 0 3 1 64 0 1 []).2 (by decide)⟩⟩

/-- In the version state an exhausted underlying stream makes every further
poll return a zero-byte chunk, so the loop never exits: no fuel suffices. -/
theorem hrrVersionEofSpins (cap got : Nat) (hg : got ≠ 2) :
    ∀ fuel, hrrReadList fuel (.readingMajorMinorVersion got) [] cap = none := by
  intro fuel
  induction fuel with
  | zero => rfl
  | succ n ih =>
    have h1 : hrrReadList (n+1) (.readingMajorMinorVersion got) [] cap
        = hrrReadList n (.readingMajorMinorVersion got) [] cap := by
      simp [hrrReadList, HandshakeRecordReader.poll_read, listRead, hg]
    rw [h1, ih]

/-- Same spin in the size state on an exhausted underlying stream. -/
theorem hrrSizeEofSpins (cap got : Nat) (buf : List Nat) (hg : got ≠ 2) :
    ∀ fuel, hrrReadList fuel (.readingRecordSize buf got) [] cap = none := by
  intro fuel
  induction fuel with
  | zero => rfl
  | succ n ih =>
    have h1 : hrrReadList (n+1) (.readingRecordSize buf got) [] cap
        = hrrReadList n (.readingRecordSize buf got) [] cap := by
      simp [hrrReadList, HandshakeRecordReader.poll_read, listRead, hg]
    rw [h1, ih]

/-- A version-state read that gets only one of the two bytes loops with one
byte still owed. -/
theorem hrrStepVersionPartial (fuel cap v1 : Nat) :
    hrrReadList (fuel+1) (.readingMajorMinorVersion 0) [v1] cap
      = hrrReadList fuel (.readingMajorMinorVersion 1) [] cap := by
  simp [hrrReadList, HandshakeRecordReader.poll_read, listRead]

/-- A size-state read that gets only one of the two bytes loops with one
byte still owed. -/
theorem hrrStepSizePartial (fuel cap hi : Nat) :
    hrrReadList (fuel+1) (.readingRecordSize [] 0) [hi] cap
      = hrrReadList fuel (.readingRecordSize [hi] 1) [] cap := by
  simp [hrrReadList, HandshakeRecordReader.poll_read, listRead]

/-- C4: refuted as stated — when the underlying stream ends partway through
a record header (right after the content-type byte, after one version byte,
or after one length byte), a read on the `HandshakeRecordReader` never
terminates: the loop re-polls the exhausted stream forever, so for every
amount of fuel the model returns none and no unexpected-EOF error is ever
surfaced. -/
theorem C4_eof_mid_header_never_errors :
    (∀ fuel cap : Nat, hrrReadList fuel .readingContentType [22] cap = none) ∧
    (∀ fuel cap : Nat, hrrReadList fuel .readingContentType [22, 3] cap = none) ∧
    (∀ fuel cap : Nat, hrrReadList fuel .readingContentType [22, 3, 1, 0] cap = none) := by
  refine ⟨fun fuel cap => ?_, fun fuel cap => ?_, fun fuel cap => ?_⟩
  · cases fuel with
    | zero => rfl
    | succ n =>
      rw [show ([22] : List Nat) = 22 :: [] from rfl, hrrStepContentType]
      exact hrrVersionEofSpins cap 0 (by decide) n
  · cases fuel with
    | zero => rfl
    | succ n =>
      rw [show ([22, 3] : List Nat) = 22 :: [3] from rfl, hrrStepContentType]
      cases n with
      | zero => rfl
      | succ m =>
        rw [hrrStepVersionPartial]
        exact hrrVersionEofSpins cap 1 (by decide) m
  · cases fuel with
    | zero => rfl
    | succ n =>
      rw [show ([22, 3, 1, 0] : List Nat) = 22 :: [3, 1, 0] from rfl, hrrStepContentType]
      cases n with
      | zero => rfl
      | succ m =>
        rw [show ([3, 1, 0] : List Nat) = 3 :: 1 :: [0] from rfl, hrrStepVersion]
        cases m with
        | zero => rfl
        | succ k =>
          rw [hrrStepSizePartial]
          exact hrrSizeEofSpins cap 1 [0] (by decide) k

/-- Drain step: a read that returns some bytes prepends them to the result
of draining the rest. -/
theorem hrrDrainStepOk (fuel rfuel cap : Nat) (st st' : HRRState)
    (src src' out rest : List Nat)
    (hread : hrrReadList rfuel st src cap = some (.ok (out, st', src')))
    (hne : out.isEmpty = false)
    (hdrain : hrrDrain fuel rfuel st' src' cap = some (.ok rest)) :
    hrrDrain (fuel+1) rfuel st src cap = some (.ok (out ++ rest)) := by
  simp [hrrDrain, hread, hne, hdrain]

/-- With a 16384-byte caller buffer, one `poll_read` call consumes exactly
one whole encoded record (its payload being at most 16384 bytes) and
returns its payload, leaving the reader awaiting the next content type. -/
theorem hrrReadsFullRecord (fuel v1 v2 : Nat) (p rest : List Nat)
    (h2 : p.length ≤ 16384) :
    hrrReadList (fuel+4) .readingContentType (encodeRecord v1 v2 p ++ rest) 16384
      = some (.ok (p, .readingContentType, rest)) := by
  have hcons : encodeRecord v1 v2 p ++ rest
      = 22 :: v1 :: v2 :: (p.length / 256) :: (p.length % 256) :: (p ++ rest) := rfl
  rw [hcons,
      show fuel+4 = (fuel+3)+1 from rfl, hrrStepContentType,
      show fuel+3 = (fuel+2)+1 from rfl, hrrStepVersion,
      show fuel+2 = (fuel+1)+1 from rfl, hrrStepSize,
      Nat.div_add_mod]
  rw [if_neg (by omega), hrrStepRecord]
  have hmin : min 16384 p.length = p.length := by omega
  rw [hmin, List.take_left, List.drop_left]
  simp

/-- C3 amended: for a record stream whose payloads all have positive length
of at most 16384, a caller draining the `HandshakeRecordReader` receives
exactly the concatenation of the payloads. -/
theorem C3_reframing_positive_records (rs : List (Nat × Nat × List Nat))
    (h : ∀ r ∈ rs, 1 ≤ r.2.2.length ∧ r.2.2.length ≤ 16384) :
    hrrDrain (rs.length + 1) 4 .readingContentType (encodeRecords rs) 16384
      = some (.ok (concatPayloads rs)) := by
  induction rs with
  | nil => rfl
  | cons r rs ih =>
    obtain ⟨v1, v2, p⟩ := r
    obtain ⟨h1, h2⟩ := h _ (List.mem_cons_self _ _)
    have hrest : ∀ r ∈ rs, 1 ≤ r.2.2.length ∧ r.2.2.length ≤ 16384 :=
      fun r hr => h r (List.mem_cons_of_mem _ hr)
    have hne : p.isEmpty = false := by
      cases p with
      | nil => simp at h1
      | cons a t => rfl
    exact hrrDrainStepOk (rs.length + 1) 4 16384 .readingContentType .readingContentType
      _ _ p (concatPayloads rs) (hrrReadsFullRecord 0 v1 v2 p (encodeRecords rs) h2)
      hne (ih hrest)

/-- Witness for C3 amended: two records with payloads `[7]` and `[8, 9]`. -/
theorem C3_reframing_positive_records_witness :
    (∀ r ∈ [(3, 1, [7]), (3, 3, [8, 9])], 1 ≤ (r : Nat × Nat × List Nat).2.2.length ∧
        r.2.2.length ≤ 16384) ∧
    hrrDrain 3 4 .readingContentType (encodeRecords [(3, 1, [7]), (3, 3, [8, 9])]) 16384
      = some (.ok (concatPayloads [(3, 1, [7]), (3, 3, [8, 9])])) :=
  ⟨by decide, C3_reframing_positive_records [(3, 1, [7]), (3, 3, [8, 9])] (by decide)⟩

/-- C3 counterexample: a stream holding a zero-length record followed by a
record with payload `[99]`.  The drain yields `[]` — the zero-length record
makes the reader surface a zero-byte read, which the caller takes as
end-of-stream — instead of the payload concatenation `[99]`. -/
theorem C3_zero_length_record_counterexample :
    hrrDrain 3 4 .readingContentType
        (encodeRecords [(3, 1, ([] : List Nat)), (3, 1, [99])]) 16384
      = some (.ok []) ∧
    concatPayloads [(3, 1, ([] : List Nat)), (3, 1, [99])] = [99] ∧
    ([] : List Nat) ≠ [99] :=
  ⟨rfl, rfl, by decide⟩

/-- A successful `read_u16` leaves a suffix of its stream. -/
theorem readU16_ok_subset (s r : List Nat) (v : Nat)
    (h : readU16 s = .ok (v, r)) : r ⊆ s := by
  match s with
  | [] => simp [readU16] at h
  | [a] => simp [readU16] at h
  | a :: b :: t =>
    simp only [readU16, Except.ok.injEq, Prod.mk.injEq] at h
    rw [← h.2]
    exact fun x hx => List.mem_cons_of_mem _ (List.mem_cons_of_mem _ hx)

/-- A successful `read_u16` over byte values decodes to at most 65535. -/
theorem readU16_ok_le (s r : List Nat) (v : Nat) (hb : ∀ b ∈ s, b < 256)
    (h : readU16 s = .ok (v, r)) : v ≤ 65535 := by
  match s with
  | [] => simp [readU16] at h
  | [a] => simp [readU16] at h
  | a :: b :: t =>
    simp only [readU16, Except.ok.injEq, Prod.mk.injEq] at h
    have ha : a < 256 := hb a (List.mem_cons_self _ _)
    have hbb : b < 256 := hb b (List.mem_cons_of_mem _ (List.mem_cons_self _ _))
    omega

/-- A successful `skip_vec_u8` leaves a sublist of its stream. -/
theorem skip_vec_u8_subset (s r : List Nat) (h : skip_vec_u8 s = .ok r) : r ⊆ s := by
  match s with
  | [] => simp [skip_vec_u8, readU8] at h
  | sz :: rest =>
    simp only [skip_vec_u8, readU8, skip, Except.ok.injEq] at h
    rw [← h]
    exact fun x hx => List.mem_cons_of_mem _ (List.drop_subset _ _ hx)

/-- A successful `skip_vec_u16` leaves a sublist of its stream. -/
theorem skip_vec_u16_subset (s r : List Nat) (h : skip_vec_u16 s = .ok r) : r ⊆ s := by
  match s with
  | [] => simp [skip_vec_u16, readU16] at h
  | [a] => simp [skip_vec_u16, readU16] at h
  | a :: b :: t =>
    simp only [skip_vec_u16, readU16, skip, Except.ok.injEq] at h
    rw [← h]
    exact fun x hx =>
      List.mem_cons_of_mem _ (List.mem_cons_of_mem _ (List.drop_subset _ _ hx))

/-- Any host name the ServerNameList loop returns is valid UTF-8 and at most
65535 bytes long (its length field is a 2-byte integer and `read_exact`
demands the stream hold that many bytes). -/
theorem snlLoop_ok (fuel : Nat) :
    ∀ (s name : List Nat), (∀ b ∈ s, b < 256) →
      snlLoop fuel s = some (.ok name) →
      validUtf8 name = true ∧ name.length ≤ 65535 := by
  induction fuel with
  | zero =>
    intro s name _ h
    simp [snlLoop] at h
  | succ n ih =>
    intro s name hb h
    match s with
    | [] => simp [snlLoop, readU8] at h
    | name_typ :: rest =>
      by_cases ht : name_typ = 0
      · subst ht
        match rest with
        | [] => simp [snlLoop, readU8, readU16] at h
        | [a] => simp [snlLoop, readU8, readU16] at h
        | a :: c :: rest' =>
          simp only [snlLoop, readU8, readU16, ne_eq, not_true_eq_false, if_false,
            reduceIte] at h
          split at h
          · simp at h
          · split at h
            · simp only [Option.some.injEq, Except.ok.injEq] at h
              rw [← h]
              refine ⟨by assumption, ?_⟩
              have ha : a < 256 := hb a (List.mem_cons_of_mem _ (List.mem_cons_self _ _))
              have hc : c < 256 :=
                hb c (List.mem_cons_of_mem _ (List.mem_cons_of_mem _ (List.mem_cons_self _ _)))
              rw [List.length_take]
              omega
            · simp at h
      · rcases hskip : skip_vec_u16 rest with e | rest2
        · simp [snlLoop, readU8, ht, hskip] at h
        · have hred : snlLoop (n+1) (name_typ :: rest) = snlLoop n rest2 := by
            simp [snlLoop, readU8, ht, hskip]
          rw [hred] at h
          exact ih rest2 name
            (fun b hb2 =>
              hb b (List.mem_cons_of_mem _ (skip_vec_u16_subset rest rest2 hskip hb2)))
            h

/-- Any host name the extensions loop returns is valid UTF-8 and at most
65535 bytes long. -/
theorem extLoop_ok (fuel : Nat) :
    ∀ (s name : List Nat), (∀ b ∈ s, b < 256) →
      extLoop fuel s = some (.ok name) →
      validUtf8 name = true ∧ name.length ≤ 65535 := by
  induction fuel with
  | zero =>
    intro s name _ h
    simp [extLoop] at h
  | succ n ih =>
    intro s name hb h
    match s with
    | [] => simp [extLoop, readU16] at h
    | [e1] => simp [extLoop, readU16] at h
    | [e1, e2] => simp [extLoop, readU16] at h
    | [e1, e2, l1] => simp [extLoop, readU16] at h
    | e1 :: e2 :: l1 :: l2 :: s2 =>
      by_cases htyp : 256 * e1 + e2 = 0
      · rcases hinner : s2.take (256 * l1 + l2) with _ | ⟨a, _ | ⟨b, i1⟩⟩
        · simp [extLoop, readU16, htyp, hinner] at h
        · simp [extLoop, readU16, htyp, hinner] at h
        · have hred : extLoop (n+1) (e1 :: e2 :: l1 :: l2 :: s2)
              = snlLoop n (i1.take (256 * a + b)) := by
            simp [extLoop, readU16, htyp, hinner]
          rw [hred] at h
          refine snlLoop_ok n (i1.take (256 * a + b)) name ?_ h
          intro x hx
          have h1 : x ∈ i1 := List.take_subset _ _ hx
          have h2 : x ∈ s2.take (256 * l1 + l2) := by
            rw [hinner]
            exact List.mem_cons_of_mem _ (List.mem_cons_of_mem _ h1)
          have h3 : x ∈ s2 := List.take_subset _ _ h2
          exact hb x (List.mem_cons_of_mem _ (List.mem_cons_of_mem _
            (List.mem_cons_of_mem _ (List.mem_cons_of_mem _ h3))))
      · have hred : extLoop (n+1) (e1 :: e2 :: l1 :: l2 :: s2)
            = extLoop n (s2.drop (256 * l1 + l2)) := by
          simp [extLoop, readU16, skip, htyp]
        rw [hred] at h
        refine ih (s2.drop (256 * l1 + l2)) name ?_ h
        intro x hx
        have h1 : x ∈ s2 := List.drop_subset _ _ hx
        exact hb x (List.mem_cons_of_mem _ (List.mem_cons_of_mem _
          (List.mem_cons_of_mem _ (List.mem_cons_of_mem _ h1))))

/-- C5 amended: every host name the ClientHello parser returns is valid
UTF-8 of length at most 65535 bytes; the empty host name can be returned,
so the lower bound is 0 rather than 1. -/
theorem C5_host_name_valid_utf8_le_65535 (fuel : Nat) (s name : List Nat)
    (hb : ∀ b ∈ s, b < 256)
    (h : read_sni_host_name_from_client_hello fuel s = some (.ok name)) :
    validUtf8 name = true ∧ name.length ≤ 65535 := by
  match s with
  | [] => simp [read_sni_host_name_from_client_hello, readU8] at h
  | typ :: r1 =>
    by_cases htyp : typ = 1
    case neg => simp [read_sni_host_name_from_client_hello, readU8, htyp] at h
    subst htyp
    match r1 with
    | [] => simp [read_sni_host_name_from_client_hello, readU8, readU24] at h
    | [a] => simp [read_sni_host_name_from_client_hello, readU8, readU24] at h
    | [a, b] => simp [read_sni_host_name_from_client_hello, readU8, readU24] at h
    | a :: b :: c :: r2 =>
      rcases h2 : skip_vec_u8 ((r2.take (65536 * a + 256 * b + c)).drop 34) with e2 | s2
      · simp [read_sni_host_name_from_client_hello, readU8, readU24, skip, h2] at h
      rcases h3 : skip_vec_u16 s2 with e3 | s3
      · simp [read_sni_host_name_from_client_hello, readU8, readU24, skip, h2, h3] at h
      rcases h4 : skip_vec_u8 s3 with e4 | s4
      · simp [read_sni_host_name_from_client_hello, readU8, readU24, skip, h2, h3, h4] at h
      rcases h5 : readU16 s4 with e5 | v5
      · simp [read_sni_host_name_from_client_hello, readU8, readU24, skip, h2, h3, h4, h5] at h
      obtain ⟨ext_len, s5⟩ := v5
      have hred : read_sni_host_name_from_client_hello fuel (1 :: a :: b :: c :: r2)
          = extLoop fuel (s5.take ext_len) := by
        simp [read_sni_host_name_from_client_hello, readU8, readU24, skip, h2, h3, h4, h5]
      rw [hred] at h
      refine extLoop_ok fuel (s5.take ext_len) name ?_ h
      intro x hx
      have hx5 : x ∈ s5 := List.take_subset _ _ hx
      have hx4 : x ∈ s4 := readU16_ok_subset s4 s5 ext_len h5 hx5
      have hx3 : x ∈ s3 := skip_vec_u8_subset s3 s4 h4 hx4
      have hx2 : x ∈ s2 := skip_vec_u16_subset s2 s3 h3 hx3
      have hx1 : x ∈ (r2.take (65536 * a + 256 * b + c)).drop 34 :=
        skip_vec_u8_subset _ s2 h2 hx2
      have hx0 : x ∈ r2 := List.take_subset _ _ (List.drop_subset _ _ hx1)
      exact hb x (List.mem_cons_of_mem _ (List.mem_cons_of_mem _
        (List.mem_cons_of_mem _ (List.mem_cons_of_mem _ hx0))))

/-- Witness for C5 amended, at the message of `c5Input`. -/
theorem C5_host_name_valid_utf8_le_65535_witness :
    (∀ b ∈ c5Input, b < 256) ∧
    read_sni_host_name_from_client_hello 2 c5Input = some (.ok []) ∧
    (validUtf8 [] = true ∧ List.length ([] : List Nat) ≤ 65535) :=
  ⟨by decide, rfl, C5_host_name_valid_utf8_le_65535 2 c5Input [] (by decide) rfl⟩

/-- C5 counterexample: on the well-formed ClientHello of `c5Input`, whose
SNI entry declares host-name length 0, the parser returns the empty host
name, refuting the claim that returned host names have length at least 1. -/
theorem C5_empty_host_name_counterexample :
    read_sni_host_name_from_client_hello 2 c5Input = some (.ok []) ∧
    ¬ 1 ≤ List.length ([] : List Nat) :=
  ⟨rfl, by decide⟩
